import Mathlib

/-!
Shallow embedding of the environment-name builder
(`src/node.v22/index.js`): a factory `createEnvironmentNameBuilder`
that validates a list of condition specs, then returns a builder with
methods `withContext`, `resetContext`, `evaluate` and `getContext`.

JavaScript values are modelled by `JSVal` (function-free values) and
`RawVal` (values that may also be functions, used where the source
inspects arbitrary inputs: constructor validation and the `check`
field).  Objects are modelled as association lists with last-binding-wins
lookup (`getProp`), which is observationally the JS object mapping and
makes the spread merge `\x7b ...a, ...b \x7d` plain list append.
Numbers are modelled as integers (no claim involves NaN or fractional
values).  A predicate `check` is a Lean function from the effective
context to `Except String JSVal`: `.error msg` models the invocation
throwing an error whose `.message` is `msg`.
-/

namespace EnvName

/-- JavaScript values without functions: the payload of contexts,
default values and condition-check results. -/
inductive JSVal where
  | undefined : JSVal
  | null : JSVal
  | boolV : Bool → JSVal
  | numV : Int → JSVal
  | strV : String → JSVal
  | objV : List (String × JSVal) → JSVal
  | arrV : List JSVal → JSVal

/-- A JavaScript object, as an association list; later bindings win
(the spread `\x7b ...a, ...b \x7d` is modelled by `a ++ b`). -/
abbrev Obj := List (String × JSVal)

/-- JavaScript truthiness of the `!!v` coercion in the source: `0`, the
empty string, `null`, `undefined` and `false` are falsy, everything
else (including empty objects and empty arrays) is truthy. -/
def JSVal.truthy : JSVal → Bool
  | .undefined => false
  | .null => false
  | .boolV b => b
  | .numV n => decide (n ≠ 0)
  | .strV s => decide (s ≠ "")
  | .objV _ => true
  | .arrV _ => true

/-- Property lookup on an association-list object: the latest binding of
the key wins, a missing key yields `none`. -/
def getProp : Obj → String → Option JSVal
  | [], _ => none
  | p :: rest, k =>
    match getProp rest k with
    | some v => some v
    | none => if p.1 = k then some p.2 else none

/-- JavaScript values as the constructor and `withContext` receive them:
like `JSVal` but with a function constructor, so that validation's
`typeof` tests and the `check` dispatch can be stated on them.  A
function takes the effective context and either returns a value or
throws (modelled by `Except`). -/
inductive RawVal where
  | undefined : RawVal
  | null : RawVal
  | boolV : Bool → RawVal
  | numV : Int → RawVal
  | strV : String → RawVal
  | objV : List (String × RawVal) → RawVal
  | arrV : List RawVal → RawVal
  | funcV : (Obj → Except String JSVal) → RawVal

/-- JavaScript truthiness on raw values (functions, objects and arrays
are truthy). -/
def RawVal.truthy : RawVal → Bool
  | .undefined => false
  | .null => false
  | .boolV b => b
  | .numV n => decide (n ≠ 0)
  | .strV s => decide (s ≠ "")
  | .objV _ => true
  | .arrV _ => true
  | .funcV _ => true

/-- The test `typeof v === 'object'` of the source: true exactly for
objects, arrays and `null`. -/
def RawVal.typeofObject : RawVal → Bool
  | .null => true
  | .objV _ => true
  | .arrV _ => true
  | _ => false

/-- Decimal value of a non-empty all-digit character list, `none`
otherwise: the numeric-string test behind JavaScript array index
properties.  (The leading-zero canonicity of JS index keys is not
modelled; the validation loop only ever probes the non-numeric keys
`check` and `name`, on which this parse returns `none`.) -/
def digitsToNat? (cs : List Char) : Option Nat :=
  if cs.isEmpty then none
  else
    cs.foldl
      (fun acc c =>
        match acc with
        | none => none
        | some n => if c.isDigit then some (n * 10 + (c.toNat - 48)) else none)
      (some 0)

/-- The `'k' in v` presence test of the source, for objects and arrays
(the only shapes validation reaches it on): an object has the keys of
its fields, an array has `length` and its index strings. -/
def RawVal.hasProp : RawVal → String → Bool
  | .objV fields, k => fields.any (fun p => p.1 == k)
  | .arrV es, k =>
    k == "length" ||
      (match digitsToNat? k.toList with
       | some i => decide (i < es.length)
       | none => false)
  | _, _ => false

/-- The per-element validation loop of the constructor
(`src/node.v22/index.js` lines 21-32), carrying the current index `i`:
each element must be truthy and of object type, then possess `check`,
then possess `name`; the first violation aborts with its message. -/
def validateElems (i : Nat) : List RawVal → Except String Unit
  | [] => .ok ()
  | c :: rest =>
    if !(c.truthy && c.typeofObject) then
      .error ("Condition at index " ++ toString i ++ " must be an object")
    else if !(c.hasProp "check") then
      .error ("Condition at index " ++ toString i ++
        " missing required property 'check'")
    else if !(c.hasProp "name") then
      .error ("Condition at index " ++ toString i ++
        " missing required property 'name'")
    else validateElems (i + 1) rest

/-- The whole constructor validation (`src/node.v22/index.js` lines
16-32): `Array.isArray(conditions)` first, then the element loop. -/
def validateConditions : RawVal → Except String Unit
  | .arrV elems => validateElems 0 elems
  | _ => .error "Conditions must be an array"

/-- A validated condition spec as the builder stores and evaluates it:
a `check` value (static raw value or a function) and a `name`. -/
structure Condition where
  check : RawVal
  name : String

/-- The raw object `\x7b check, name \x7d` a structured condition came
from, used to relate the structured builder to raw validation. -/
def Condition.toRaw (c : Condition) : RawVal :=
  .objV [("check", c.check), ("name", .strV c.name)]

/-- The builder state returned by the constructor: the condition list
and default value stored verbatim, and the accumulated `_context`,
initially empty. -/
structure Builder where
  conditions : List Condition
  defaultValue : JSVal
  _context : Obj

/-- The constructor on already-validated structured conditions
(`src/node.v22/index.js` lines 35-39): stores the conditions and
default value and starts with an empty accumulated context.  Source
defaults: `conditions = []`, `defaultValue = []`. -/
def createEnvironmentNameBuilder
    (conditions : List Condition := []) (defaultValue : JSVal := .arrV []) :
    Builder :=
  { conditions := conditions, defaultValue := defaultValue, _context := [] }

/-- The `withContext` argument: any JavaScript value (`RawVal` shaped),
with object fields already in context form. -/
inductive CtxArg where
  | undefined : CtxArg
  | null : CtxArg
  | boolV : Bool → CtxArg
  | numV : Int → CtxArg
  | strV : String → CtxArg
  | objV : Obj → CtxArg
  | arrV : List JSVal → CtxArg
  | funcV : (Obj → Except String JSVal) → CtxArg

/-- Whether the guard `ctx && typeof ctx === 'object' &&
!Array.isArray(ctx)` of `withContext` accepts the argument: only a
plain (non-null, non-array, non-function) object passes. -/
def CtxArg.mergeable : CtxArg → Bool
  | .objV _ => true
  | _ => false

/-- The `withContext(ctx = \x7b\x7d)` method (`src/node.v22/index.js`
lines 45-50): a plain object is spread-merged into the accumulated
context (its keys winning), an omitted/`undefined` argument becomes the
default empty object, every other value fails the guard and is
ignored.  The method returns `this`, i.e. the (updated) builder. -/
def withContext (b : Builder) (a : CtxArg) : Builder :=
  match a with
  | .objV o => { b with _context := b._context ++ o }
  | .undefined => { b with _context := b._context ++ [] }
  | _ => b

/-- The `resetContext()` method (`src/node.v22/index.js` lines 56-59):
clears the accumulated context, returns `this`. -/
def resetContext (b : Builder) : Builder :=
  { b with _context := [] }

/-- The `getContext()` method's return value (`src/node.v22/index.js`
lines 106-108) as a mapping: a shallow copy of the accumulated context,
so equal to it as a mapping (the fresh-object aspect of the copy is
modelled by `getContextRef` on the store below). -/
def getContext (b : Builder) : Obj :=
  b._context

/-- The effective context of one `evaluate` call
(`src/node.v22/index.js` lines 68-72): `\x7b env: process.env,
...this._context, ...runtimeContext \x7d`, a shallow three-layer merge
with the environment snapshot under key `env`. -/
def effectiveContext (env acc rt : Obj) : Obj :=
  (("env", JSVal.objV env) :: acc) ++ rt

/-- The per-condition body of the `evaluate` loop
(`src/node.v22/index.js` lines 80-93): if `check` is a function (the
`typeof condition.check === 'function'` branch) it is invoked with the
effective context and its result coerced with `!!`, a throw passing
through as `.error` of the thrown message; otherwise `check` is a
static value coerced with `!!`. -/
def checkValue (ctx : Obj) (c : Condition) : Except String Bool :=
  match c.check with
  | .funcV f =>
    match f ctx with
    | .ok v => .ok v.truthy
    | .error e => .error e
  | v => .ok v.truthy

/-- The condition loop of `evaluate` (`src/node.v22/index.js` lines
77-97): each condition's check outcome (`checkValue`) is computed in
order; a throw is rewrapped as `Error evaluating condition
'<name>': <message>` and aborts the loop; every truthy outcome appends
`[true, name]`. -/
def evaluateAux (ctx : Obj) : List Condition → Except String (List (Bool × String))
  | [] => .ok []
  | c :: rest =>
    match checkValue ctx c with
    | .error e =>
      .error ("Error evaluating condition '" ++ c.name ++ "': " ++ e)
    | .ok bv =>
      match evaluateAux ctx rest with
      | .error e2 => .error e2
      | .ok ms => .ok (if bv then (true, c.name) :: ms else ms)

/-- The `evaluate(runtimeContext = \x7b\x7d)` method
(`src/node.v22/index.js` lines 66-100): builds the effective context,
runs the condition loop, and returns the match list if non-empty, else
the stored default value itself. -/
def evaluate (env : Obj) (b : Builder) (rt : Obj) : Except String JSVal :=
  match evaluateAux (effectiveContext env b._context rt) b.conditions with
  | .error e => .error e
  | .ok ms =>
    .ok (if ms.length > 0 then
           .arrV (ms.map (fun p => .arrV [.boolV p.1, .strV p.2]))
         else b.defaultValue)

/-- The `evaluate` method as a state transformer: its return value
paired with the builder after the call.  The method body contains no
assignment to any field of `this`, so the post-state is the receiver
unchanged. -/
def evaluateStep (env : Obj) (b : Builder) (rt : Obj) :
    Except String JSVal × Builder :=
  (evaluate env b rt, b)

/-- Whether a condition matches (its check succeeds with a truthy
value) against a context. -/
def isMatch (ctx : Obj) (c : Condition) : Bool :=
  match checkValue ctx c with
  | .ok b => b
  | .error _ => false

/-- Well-shaped raw condition element: truthy, of object type, and
possessing both `check` and `name`. -/
def elemValid (c : RawVal) : Bool :=
  c.truthy && c.typeofObject && c.hasProp "check" && c.hasProp "name"

/-- A store of JavaScript objects, addressed by allocation order: the
object-identity model needed for the copy semantics of `getContext`
(the spread `\x7b ...this._context \x7d` allocates a fresh object). -/
structure Store where
  objs : List Obj

/-- The object held at an address (the empty object at a dangling
address, which valid executions never produce). -/
def readObj (s : Store) (a : Nat) : Obj :=
  (s.objs[a]?).getD []

/-- Allocation of a fresh object: it receives the next free address,
distinct from every live one. -/
def allocObj (s : Store) (o : Obj) : Store × Nat :=
  ({ objs := s.objs ++ [o] }, s.objs.length)

/-- In-place mutation of the object at an address (any JavaScript
mutation of that object: property writes, deletes, wholesale change). -/
def writeObj (s : Store) (a : Nat) (o : Obj) : Store :=
  { objs := s.objs.set a o }

/-- The `getContext()` method on the store (`src/node.v22/index.js`
lines 106-108): `return \x7b ...this._context \x7d` allocates a fresh
object carrying the fields of the accumulated-context object at
`ctxAddr` and returns its address. -/
def getContextRef (s : Store) (ctxAddr : Nat) : Store × Nat :=
  allocObj s (readObj s ctxAddr)

/-- Lookup across an object append: a binding in the right (later,
higher-precedence) operand wins, the left operand answers otherwise. -/
theorem getProp_append (a b : Obj) (k : String) :
    getProp (a ++ b) k =
      match getProp b k with
      | some v => some v
      | none => getProp a k := by
  induction a with
  | nil =>
    simp only [List.nil_append, getProp]
    cases getProp b k <;> rfl
  | cons p rest ih =>
    cases hb : getProp b k <;> cases hr : getProp rest k <;>
      simp_all [List.cons_append, getProp]

/-- When every check succeeds, the loop returns exactly the matching
conditions, in order, each as a `(true, name)` pair. -/
theorem evaluateAux_ok (ctx : Obj) (cs : List Condition)
    (h : ∀ c ∈ cs, (checkValue ctx c).isOk = true) :
    evaluateAux ctx cs =
      .ok ((cs.filter (isMatch ctx)).map (fun c => (true, c.name))) := by
  induction cs with
  | nil => rfl
  | cons c rest ih =>
    have hc := h c (List.mem_cons_self _ _)
    have hrest := ih (fun x hx => h x (List.mem_cons_of_mem _ hx))
    cases hcv : checkValue ctx c with
    | error e => rw [hcv] at hc; simp [Except.isOk, Except.toBool] at hc
    | ok bv =>
      rw [evaluateAux, hcv, hrest]
      simp only [List.filter_cons, isMatch, hcv]
      cases bv <;> simp

/-- The loop over an all-succeeding prefix: the prefix contributes its
matches in front, and the rest of the list decides success or failure. -/
theorem evaluateAux_append (ctx : Obj) (pre rest : List Condition)
    (h : ∀ c ∈ pre, (checkValue ctx c).isOk = true) :
    evaluateAux ctx (pre ++ rest) =
      match evaluateAux ctx rest with
      | .error e => .error e
      | .ok ms =>
        .ok (((pre.filter (isMatch ctx)).map (fun c => (true, c.name))) ++ ms) := by
  induction pre with
  | nil =>
    simp only [List.nil_append, List.filter_nil, List.map_nil]
    cases evaluateAux ctx rest <;> simp
  | cons c pre2 ih =>
    have hc := h c (List.mem_cons_self _ _)
    have hpre2 := ih (fun x hx => h x (List.mem_cons_of_mem _ hx))
    cases hcv : checkValue ctx c with
    | error e => rw [hcv] at hc; simp [Except.isOk, Except.toBool] at hc
    | ok bv =>
      rw [List.cons_append, evaluateAux, hcv, hpre2]
      simp only [List.filter_cons, isMatch, hcv]
      cases hrest : evaluateAux ctx rest <;> cases bv <;> simp

/-- The validation loop skips a well-shaped prefix, advancing the index
by its length. -/
theorem validateElems_append (i : Nat) (pre rest : List RawVal)
    (h : ∀ x ∈ pre, elemValid x = true) :
    validateElems i (pre ++ rest) = validateElems (i + pre.length) rest := by
  induction pre generalizing i with
  | nil => simp
  | cons c pre2 ih =>
    have hc := h c (List.mem_cons_self _ _)
    have h2 := fun x hx => h x (List.mem_cons_of_mem _ hx)
    simp only [elemValid, Bool.and_eq_true] at hc
    obtain ⟨⟨⟨ht, hty⟩, hck⟩, hnm⟩ := hc
    rw [List.cons_append, validateElems]
    simp only [ht, hty, hck, hnm, Bool.and_self, Bool.not_true,
      Bool.false_eq_true, if_false, ite_false]
    rw [ih _ h2]
    congr 1
    simp
    omega

/-- A conditions array whose elements are all well shaped validates. -/
theorem validateConditions_of_valid (elems : List RawVal)
    (h : ∀ x ∈ elems, elemValid x = true) :
    validateConditions (.arrV elems) = .ok () := by
  have h2 := validateElems_append 0 elems [] h
  rw [List.append_nil] at h2
  exact h2

/-- Reading a freshly allocated object gives back its contents. -/
theorem readObj_alloc (s : Store) (o : Obj) :
    readObj (allocObj s o).1 (allocObj s o).2 = o := by
  simp [readObj, allocObj, List.getElem?_append_right (Nat.le_refl _)]

/-- Writing one address leaves the object at any other address alone. -/
theorem readObj_write_ne (s : Store) (a b : Nat) (o : Obj) (h : a ≠ b) :
    readObj (writeObj s a o) b = readObj s b := by
  simp [readObj, writeObj, List.getElem?_set_ne h]

/-- Allocation leaves every live address alone. -/
theorem readObj_alloc_lt (s : Store) (o : Obj) (b : Nat)
    (h : b < s.objs.length) :
    readObj (allocObj s o).1 b = readObj s b := by
  simp [readObj, allocObj, List.getElem?_append_left h]

/-- C1: for every validly constructed evaluator and effective context,
when no callable check throws, `evaluate` returns the ordered list of
`(true, name)` pairs of exactly the conditions whose coerced check is
truthy, in input order, with no `false` entries and no deduplication;
when that list is empty it returns the stored default value itself,
unwrapped.  Truthiness is the standard coercion: zero, the empty
string, `null`, `undefined` and `false` are false; everything else,
including empty objects and empty arrays, is true. -/
theorem evaluate_matches (env acc rt : Obj) (cs : List Condition) (d : JSVal)
    (h : ∀ c ∈ cs, (checkValue (effectiveContext env acc rt) c).isOk = true) :
    evaluate env ⟨cs, d, acc⟩ rt =
      .ok (if (cs.filter (isMatch (effectiveContext env acc rt))).isEmpty then d
           else .arrV ((cs.filter (isMatch (effectiveContext env acc rt))).map
                  (fun c => .arrV [.boolV true, .strV c.name]))) ∧
    (∀ n : Int, JSVal.truthy (.numV n) = decide (n ≠ 0)) ∧
    (∀ s, JSVal.truthy (.strV s) = decide (s ≠ "")) ∧
    JSVal.truthy .null = false ∧ JSVal.truthy .undefined = false ∧
    (∀ b2, JSVal.truthy (.boolV b2) = b2) ∧
    (∀ fs, JSVal.truthy (.objV fs) = true) ∧
    (∀ es, JSVal.truthy (.arrV es) = true) := by
  refine ⟨?_, fun _ => rfl, fun _ => rfl, rfl, rfl, fun _ => rfl, fun _ => rfl,
    fun _ => rfl⟩
  unfold evaluate
  dsimp only
  rw [evaluateAux_ok _ _ h]
  cases hfl : cs.filter (isMatch (effectiveContext env acc rt)) with
  | nil => simp
  | cons c0 l2 => simp

/-- Witness for C1 at a concrete evaluator: a truthy static check and a
falsy one produce exactly the one `(true, name)` pair. -/
theorem evaluate_matches_witness :
    (∀ c ∈ ([⟨.boolV true, "a"⟩, ⟨.numV 0, "b"⟩] : List Condition),
        (checkValue (effectiveContext [] [] []) c).isOk = true) ∧
    evaluate [] ⟨[⟨.boolV true, "a"⟩, ⟨.numV 0, "b"⟩], .null, []⟩ [] =
      .ok (.arrV [.arrV [.boolV true, .strV "a"]]) := by
  refine ⟨by decide, ?_⟩
  exact (evaluate_matches [] [] [] [⟨.boolV true, "a"⟩, ⟨.numV 0, "b"⟩] .null
    (by decide)).1

/-- C2: the effective context resolves a key to the runtime value when
the runtime layer binds it; to the accumulated value when only the
accumulated layer binds it; and to the environment layer's binding
(the `env` key holding the environment snapshot) when neither does. -/
theorem context_precedence (env acc rt : Obj) (k : String) (v : JSVal) :
    (getProp rt k = some v → getProp (effectiveContext env acc rt) k = some v) ∧
    (getProp rt k = none → getProp acc k = some v →
        getProp (effectiveContext env acc rt) k = some v) ∧
    (getProp rt k = none → getProp acc k = none →
        getProp (effectiveContext env acc rt) k =
          getProp [("env", JSVal.objV env)] k) := by
  unfold effectiveContext
  refine ⟨fun h1 => ?_, fun h1 h2 => ?_, fun h1 h2 => ?_⟩
  · rw [getProp_append]; simp [h1]
  · rw [getProp_append]; simp [h1, getProp, h2]
  · rw [getProp_append]; simp [h1, getProp, h2]

/-- Witness for C2 at the key `env`, the one key all three layers can
bind: runtime wins, then accumulated, then the environment snapshot. -/
theorem context_precedence_witness :
    getProp [("env", JSVal.strV "rtv")] "env" = some (.strV "rtv") ∧
    getProp (effectiveContext [("X", .strV "x")] [("env", .strV "accv")]
      [("env", .strV "rtv")]) "env" = some (.strV "rtv") ∧
    getProp (effectiveContext [("X", .strV "x")] [("env", .strV "accv")] [])
      "env" = some (.strV "accv") ∧
    getProp (effectiveContext [("X", .strV "x")] [] []) "env" =
      getProp [("env", JSVal.objV [("X", .strV "x")])] "env" := by
  refine ⟨rfl, ?_, ?_, ?_⟩
  · exact (context_precedence [("X", .strV "x")] [("env", .strV "accv")]
      [("env", .strV "rtv")] "env" (.strV "rtv")).1 rfl
  · exact (context_precedence [("X", .strV "x")] [("env", .strV "accv")] []
      "env" (.strV "accv")).2.1 rfl rfl
  · exact (context_precedence [("X", .strV "x")] [] [] "env" .null).2.2 rfl rfl

/-- C3: when the first throwing callable check is reached (all earlier
checks succeeding), `evaluate` fails with exactly
`Error evaluating condition '<name>': <underlying message>`, whatever
conditions follow (no partial result, no continuation), and the
post-state builder — accumulated context, condition list and default
value — is the receiver unchanged. -/
theorem evaluate_error_propagation (env acc rt : Obj) (d : JSVal)
    (pre post : List Condition) (f : Obj → Except String JSVal) (nm msg : String)
    (hpre : ∀ c ∈ pre, (checkValue (effectiveContext env acc rt) c).isOk = true)
    (hf : f (effectiveContext env acc rt) = .error msg) :
    evaluateStep env ⟨pre ++ ⟨.funcV f, nm⟩ :: post, d, acc⟩ rt =
      (.error ("Error evaluating condition '" ++ nm ++ "': " ++ msg),
       ⟨pre ++ ⟨.funcV f, nm⟩ :: post, d, acc⟩) := by
  have hstep : evaluateAux (effectiveContext env acc rt) (⟨.funcV f, nm⟩ :: post) =
      .error ("Error evaluating condition '" ++ nm ++ "': " ++ msg) := by
    rw [evaluateAux]
    simp [checkValue, hf]
  unfold evaluateStep evaluate
  dsimp only
  rw [evaluateAux_append _ _ _ hpre, hstep]

/-- Witness for C3: a throwing check in the middle of the list aborts
the call with the wrapped message and leaves the builder unchanged. -/
theorem evaluate_error_propagation_witness :
    (∀ c ∈ ([⟨.boolV true, "a"⟩] : List Condition),
        (checkValue (effectiveContext [] [] []) c).isOk = true) ∧
    (fun _ => Except.error "boom" : Obj → Except String JSVal)
        (effectiveContext [] [] []) = .error "boom" ∧
    evaluateStep []
        ⟨[⟨.boolV true, "a"⟩, ⟨.funcV (fun _ => .error "boom"), "x"⟩,
          ⟨.boolV true, "c"⟩], .null, []⟩ [] =
      (.error "Error evaluating condition 'x': boom",
       ⟨[⟨.boolV true, "a"⟩, ⟨.funcV (fun _ => .error "boom"), "x"⟩,
         ⟨.boolV true, "c"⟩], .null, []⟩) := by
  refine ⟨by decide, rfl, ?_⟩
  exact evaluate_error_propagation [] [] [] .null [⟨.boolV true, "a"⟩]
    [⟨.boolV true, "c"⟩] (fun _ => .error "boom") "x" "boom" (by decide) rfl

/-- C4: construction validates eagerly, in list order, failing fast: a
non-array conditions argument fails with `Conditions must be an array`;
after a well-shaped prefix, an object element lacking `check` fails
with the missing-`check` message at its index, and one with `check` but
no `name` with the missing-`name` message; presence, not truthiness, is
tested, so `check` values `false`, `0` or the empty string are
accepted; on success validation returns cleanly and the constructed
evaluator has an empty accumulated context. -/
theorem construction_validation :
    (∀ r : RawVal, (∀ es, r ≠ .arrV es) →
        validateConditions r = .error "Conditions must be an array") ∧
    (∀ pre (c : RawVal) post, (∀ x ∈ pre, elemValid x = true) →
        (c.truthy && c.typeofObject) = true → c.hasProp "check" = false →
        validateConditions (.arrV (pre ++ c :: post)) =
          .error ("Condition at index " ++ toString pre.length ++
            " missing required property 'check'")) ∧
    (∀ pre (c : RawVal) post, (∀ x ∈ pre, elemValid x = true) →
        (c.truthy && c.typeofObject) = true → c.hasProp "check" = true →
        c.hasProp "name" = false →
        validateConditions (.arrV (pre ++ c :: post)) =
          .error ("Condition at index " ++ toString pre.length ++
            " missing required property 'name'")) ∧
    (∀ elems, (∀ x ∈ elems, elemValid x = true) →
        validateConditions (.arrV elems) = .ok ()) ∧
    (∀ v n, elemValid (.objV [("check", v), ("name", .strV n)]) = true) ∧
    (∀ cs d, validateConditions (.arrV (cs.map Condition.toRaw)) = .ok () ∧
        (createEnvironmentNameBuilder cs d)._context = []) := by
  refine ⟨?_, ?_, ?_, validateConditions_of_valid, fun v n => rfl, ?_⟩
  · intro r hr
    cases r
    case arrV es => exact absurd rfl (hr es)
    all_goals rfl
  · intro pre c post hpre hobj hck
    show validateElems 0 (pre ++ c :: post) = _
    rw [validateElems_append 0 pre _ hpre, validateElems]
    simp [hobj, hck]
  · intro pre c post hpre hobj hck hnm
    show validateElems 0 (pre ++ c :: post) = _
    rw [validateElems_append 0 pre _ hpre, validateElems]
    simp [hobj, hck, hnm]
  · intro cs d
    refine ⟨validateConditions_of_valid _ ?_, rfl⟩
    intro x hx
    rcases List.mem_map.mp hx with ⟨c, hc, rfl⟩
    rfl

/-- Witness for C4: each validation outcome at a concrete input,
including acceptance of falsy `check` values. -/
theorem construction_validation_witness :
    validateConditions (.strV "nope") = .error "Conditions must be an array" ∧
    validateConditions (.arrV [.objV [("check", .boolV false), ("name", .strV "a")],
        .objV [("name", .strV "b")]]) =
      .error "Condition at index 1 missing required property 'check'" ∧
    validateConditions (.arrV [.objV [("check", .numV 0), ("name", .strV "a")],
        .objV [("check", .strV "")]]) =
      .error "Condition at index 1 missing required property 'name'" ∧
    validateConditions (.arrV [.objV [("check", .boolV false), ("name", .strV "a")]]) =
      .ok () ∧
    (createEnvironmentNameBuilder [⟨.boolV false, "a"⟩] .null)._context = [] := by
  refine ⟨?_, ?_, ?_, ?_, ?_⟩
  · exact construction_validation.1 (.strV "nope") (fun es h => by cases h)
  · exact construction_validation.2.1 [.objV [("check", .boolV false), ("name", .strV "a")]]
      (.objV [("name", .strV "b")]) [] (by decide) (by decide) (by decide)
  · exact construction_validation.2.2.1 [.objV [("check", .numV 0), ("name", .strV "a")]]
      (.objV [("check", .strV "")]) [] (by decide) (by decide) (by decide) (by decide)
  · exact construction_validation.2.2.2.1 [.objV [("check", .boolV false), ("name", .strV "a")]]
      (by decide)
  · exact (construction_validation.2.2.2.2.2 [⟨.boolV false, "a"⟩] .null).2

/-- Counterexample to C5 as stated: an array element is not rejected
with `Condition at index 0 must be an object` — being truthy and of
`typeof` object, it passes the shape test and instead fails the
`check`-presence test. -/
theorem condition_array_element_counterexample :
    validateConditions (.arrV [.arrV []]) ≠
      .error "Condition at index 0 must be an object" ∧
    validateConditions (.arrV [.arrV []]) =
      .error "Condition at index 0 missing required property 'check'" := by
  refine ⟨?_, rfl⟩
  intro h
  have hred : validateConditions (.arrV [.arrV []]) =
      .error "Condition at index 0 missing required property 'check'" := rfl
  rw [hred] at h
  injection h with h2
  exact absurd h2 (by decide)

/-- C5 as amended: an element that is falsy or not of object type —
booleans, strings, numbers, `null`, `undefined`, functions — fails with
`Condition at index i must be an object`; an array element, however,
is of object type and instead fails the `check`-presence test with
`Condition at index i missing required property 'check'`. -/
theorem condition_element_rejection :
    (∀ pre (c : RawVal) post, (∀ x ∈ pre, elemValid x = true) →
        (c.truthy && c.typeofObject) = false →
        validateConditions (.arrV (pre ++ c :: post)) =
          .error ("Condition at index " ++ toString pre.length ++
            " must be an object")) ∧
    (∀ pre es post, (∀ x ∈ pre, elemValid x = true) →
        validateConditions (.arrV (pre ++ .arrV es :: post)) =
          .error ("Condition at index " ++ toString pre.length ++
            " missing required property 'check'")) := by
  constructor
  · intro pre c post hpre hobj
    show validateElems 0 (pre ++ c :: post) = _
    rw [validateElems_append 0 pre _ hpre, validateElems]
    simp [hobj]
  · intro pre es post hpre
    have hobj : (RawVal.truthy (.arrV es) && RawVal.typeofObject (.arrV es)) = true := rfl
    have hck : RawVal.hasProp (.arrV es) "check" = false := rfl
    show validateElems 0 (pre ++ .arrV es :: post) = _
    rw [validateElems_append 0 pre _ hpre, validateElems]
    simp [hobj, hck]

/-- Witness for the amended C5: a boolean element is rejected as not an
object, an array element as missing `check`. -/
theorem condition_element_rejection_witness :
    validateConditions (.arrV [.objV [("check", .boolV true), ("name", .strV "a")],
        .boolV true]) =
      .error "Condition at index 1 must be an object" ∧
    validateConditions (.arrV [.arrV [.strV "z"]]) =
      .error "Condition at index 0 missing required property 'check'" := by
  constructor
  · exact condition_element_rejection.1
      [.objV [("check", .boolV true), ("name", .strV "a")]] (.boolV true) []
      (by decide) (by decide)
  · exact condition_element_rejection.2 [] [.strV "z"] [] (by decide)

/-- C6: the effective context is the shallow three-layer merge — a key
resolves to the runtime binding, else the accumulated binding, else the
environment layer's sole binding (`env` holding the whole snapshot);
the replacement is total, so a layer binding `env` itself replaces the
entire environment-variables object. -/
theorem shallow_merge (env acc rt : Obj) (k : String) (w : JSVal) :
    (getProp (effectiveContext env acc rt) k =
       match getProp rt k with
       | some v => some v
       | none =>
         match getProp acc k with
         | some v => some v
         | none => if "env" = k then some (JSVal.objV env) else none) ∧
    (getProp rt "env" = some w → getProp (effectiveContext env acc rt) "env" = some w) ∧
    (getProp rt "env" = none → getProp acc "env" = some w →
       getProp (effectiveContext env acc rt) "env" = some w) := by
  refine ⟨?_, fun h1 => ?_, fun h1 h2 => ?_⟩
  · unfold effectiveContext
    rw [getProp_append]
    cases hr : getProp rt k
    · simp only [getProp]
    · rfl
  · unfold effectiveContext; rw [getProp_append]; simp [h1]
  · unfold effectiveContext; rw [getProp_append]; simp [h1, getProp, h2]

/-- Witness for C6: an `env` binding in the runtime or accumulated
layer replaces the whole environment snapshot, which otherwise shows
through under `env`. -/
theorem shallow_merge_witness :
    getProp (effectiveContext [("X", .strV "x")] [] [("env", .strV "rtv")]) "env" =
      some (.strV "rtv") ∧
    getProp (effectiveContext [("X", .strV "x")] [("env", .strV "accv")] []) "env" =
      some (.strV "accv") ∧
    getProp (effectiveContext [("X", .strV "x")] [] []) "env" =
      some (.objV [("X", .strV "x")]) := by
  refine ⟨?_, ?_, ?_⟩
  · exact (shallow_merge [("X", .strV "x")] [] [("env", .strV "rtv")] "env"
      (.strV "rtv")).2.1 rfl
  · exact (shallow_merge [("X", .strV "x")] [("env", .strV "accv")] [] "env"
      (.strV "accv")).2.2 rfl rfl
  · exact (shallow_merge [("X", .strV "x")] [] [] "env" .null).1

/-- C7: `withContext` with a plain object shallow-merges it into the
accumulated context with the argument's keys winning; repeated calls
compose with later calls overriding earlier ones; any non-mergeable
argument leaves the builder entirely unchanged with no error; and the
call returns the evaluator itself (its conditions and default value
untouched). -/
theorem withContext_merge (b : Builder) (o o2 : Obj) (a : CtxArg) (k : String) :
    (getProp (withContext b (.objV o))._context k =
       match getProp o k with
       | some v => some v
       | none => getProp b._context k) ∧
    (getProp (withContext (withContext b (.objV o)) (.objV o2))._context k =
       match getProp o2 k with
       | some v => some v
       | none =>
         match getProp o k with
         | some v => some v
         | none => getProp b._context k) ∧
    (a.mergeable = false → withContext b a = b) ∧
    (withContext b a).conditions = b.conditions ∧
    (withContext b a).defaultValue = b.defaultValue := by
  refine ⟨getProp_append _ _ _, ?_, ?_, ?_, ?_⟩
  · show getProp ((b._context ++ o) ++ o2) k = _
    rw [getProp_append, getProp_append]
  · intro hm
    cases b
    cases a <;> simp_all [CtxArg.mergeable, withContext]
  · cases a <;> rfl
  · cases a <;> rfl

/-- Witness for C7: a string argument is ignored outright; an object
argument's binding overrides the accumulated one. -/
theorem withContext_merge_witness :
    withContext ⟨[], .null, [("x", .numV 1)]⟩ (.strV "nope") =
      ⟨[], .null, [("x", .numV 1)]⟩ ∧
    getProp (withContext ⟨[], .null, [("x", .numV 1)]⟩
      (.objV [("x", .numV 2)]))._context "x" = some (.numV 2) := by
  constructor
  · exact (withContext_merge ⟨[], .null, [("x", .numV 1)]⟩ [] [] (.strV "nope")
      "x").2.2.1 rfl
  · exact (withContext_merge ⟨[], .null, [("x", .numV 1)]⟩ [("x", .numV 2)] []
      (.strV "nope") "x").1

/-- C8: `getContext` returns a copy: on the object store, the returned
object holds the same mapping as the accumulated-context object but
lives at a fresh address, so mutating it arbitrarily leaves the
internal object, every later `getContext` read, and every later
`evaluate` result unchanged. -/
theorem getContext_independent (s : Store) (caddr : Nat)
    (h : caddr < s.objs.length) (mutObj : Obj)
    (cs : List Condition) (d : JSVal) (env rt : Obj) :
    readObj (getContextRef s caddr).1 (getContextRef s caddr).2 = readObj s caddr ∧
    (getContextRef s caddr).2 ≠ caddr ∧
    readObj (writeObj (getContextRef s caddr).1 (getContextRef s caddr).2 mutObj) caddr =
      readObj s caddr ∧
    readObj
        (getContextRef (writeObj (getContextRef s caddr).1
          (getContextRef s caddr).2 mutObj) caddr).1
        (getContextRef (writeObj (getContextRef s caddr).1
          (getContextRef s caddr).2 mutObj) caddr).2 =
      readObj s caddr ∧
    evaluate env
        ⟨cs, d, readObj (writeObj (getContextRef s caddr).1
          (getContextRef s caddr).2 mutObj) caddr⟩ rt =
      evaluate env ⟨cs, d, readObj s caddr⟩ rt := by
  have hne : (getContextRef s caddr).2 ≠ caddr := by
    show s.objs.length ≠ caddr
    omega
  have h3 : readObj (writeObj (getContextRef s caddr).1
      (getContextRef s caddr).2 mutObj) caddr = readObj s caddr := by
    rw [readObj_write_ne _ _ _ _ hne]
    exact readObj_alloc_lt s _ caddr h
  refine ⟨readObj_alloc s _, hne, h3, ?_, by rw [h3]⟩
  exact (readObj_alloc _ _).trans h3

/-- Witness for C8: mutating the copy returned over a one-object store
leaves the accumulated-context object unchanged. -/
theorem getContext_independent_witness :
    0 < (Store.mk [[("a", JSVal.numV 1)]]).objs.length ∧
    readObj
        (writeObj (getContextRef (Store.mk [[("a", JSVal.numV 1)]]) 0).1
          (getContextRef (Store.mk [[("a", JSVal.numV 1)]]) 0).2
          [("a", JSVal.numV 2)]) 0 =
      readObj (Store.mk [[("a", JSVal.numV 1)]]) 0 :=
  ⟨by decide,
   (getContext_independent (Store.mk [[("a", JSVal.numV 1)]]) 0 (by decide)
     [("a", JSVal.numV 2)] [] .null [] []).2.2.1⟩

/-- C9: every operation preserves the condition list and the default
value; `evaluate` leaves the whole builder state untouched;
`resetContext` empties the accumulated context and changes nothing
else; and `withContext` never drops an accumulated key — only an
explicit reset clears the context. -/
theorem builder_invariants (b : Builder) (a : CtxArg) (env rt : Obj)
    (k : String) (v : JSVal) :
    (withContext b a).conditions = b.conditions ∧
    (withContext b a).defaultValue = b.defaultValue ∧
    (resetContext b).conditions = b.conditions ∧
    (resetContext b).defaultValue = b.defaultValue ∧
    (resetContext b)._context = [] ∧
    (evaluateStep env b rt).2 = b ∧
    (getProp b._context k = some v →
        (getProp (withContext b a)._context k).isSome = true) := by
  refine ⟨?_, ?_, rfl, rfl, rfl, rfl, ?_⟩
  · cases a <;> rfl
  · cases a <;> rfl
  · intro hk
    cases a with
    | objV o =>
      show (getProp (b._context ++ o) k).isSome = true
      rw [getProp_append]
      cases getProp o k <;> simp [hk]
    | undefined =>
      show (getProp (b._context ++ []) k).isSome = true
      rw [getProp_append]
      simp [getProp, hk]
    | null => simp [withContext, hk]
    | boolV b2 => simp [withContext, hk]
    | numV n => simp [withContext, hk]
    | strV s => simp [withContext, hk]
    | arrV es => simp [withContext, hk]
    | funcV f => simp [withContext, hk]

/-- Witness for C9: an accumulated key survives a `withContext` merge
of an unrelated object. -/
theorem builder_invariants_witness :
    getProp ([("x", JSVal.numV 1)] : Obj) "x" = some (.numV 1) ∧
    (getProp (withContext ⟨[], .null, [("x", .numV 1)]⟩
      (.objV [("y", .numV 2)]))._context "x").isSome = true :=
  ⟨rfl,
   (builder_invariants ⟨[], .null, [("x", .numV 1)]⟩ (.objV [("y", .numV 2)])
     [] [] "x" (.numV 1)).2.2.2.2.2.2 rfl⟩

/-- C10: a function-valued `withContext` argument is silently ignored,
exactly like the other non-record inputs: the builder — in particular
the accumulated context seen by `getContext` — is unchanged, and the
call returns the evaluator itself. -/
theorem withContext_function_ignored (b : Builder) (f : Obj → Except String JSVal) :
    withContext b (.funcV f) = b ∧
    getContext (withContext b (.funcV f)) = getContext b :=
  ⟨rfl, rfl⟩

end EnvName
